import Mathlib

/-!
Verification of the contact-directory core (`classes.py`): field validators
(`Name`, `Phone`, `Birthday`), `Record`, and `AddressBook` with its
upcoming-birthday query.

Modelling conventions:
* Strings are Lean `String`s over their characters.  Python's `str.isdigit`,
  `str.isalpha` and `str.lower` are modelled at the ASCII level
  (`Char.isDigit`, `Char.isAlpha`, `Char.toLower`), which agrees with Python
  on all ASCII input.
* Python exceptions are modelled by the error kinds `Err`.  Mutating methods
  become state transformers returning the new state together with an optional
  error; the state returned on error is the state at the moment of the raise,
  so atomicity is a provable property rather than an artefact of the encoding.
* `datetime.date` is modelled by `PDate` (proleptic Gregorian calendar,
  years 1–9999, as in CPython); `date.weekday()` is Monday = 0 … Sunday = 6,
  day differences go through the ordinal (rata die) count, and
  `date.replace(year=…)` re-validates the result.
* `AddressBook` extends `UserDict`; a Python `dict` preserves insertion order
  and updates a present key in place, so `data` is an insertion-ordered
  association list with exactly that update rule.
* `get_upcoming_birthdays` reads `date.today()` and takes `days=7` by
  default; the model passes `today` and `days` explicitly.  The generator is
  modelled as the eagerly collected list (as `show_upcoming_birthdays` and the
  command layer consume it); an exception raised while producing it aborts the
  whole query.
-/

set_option autoImplicit false

namespace GoitHw7

/-- Error kinds raised by the core: `ValueError` on a failed field
validation, `ValueError` on a duplicate phone, `ValueError`/`KeyError` for a
missing phone or directory key, and the `ValueError` raised by
`date.replace` on an out-of-range date. -/
inductive Err where
  | invalidFormat
  | duplicatePhone
  | notFound
  | dateOutOfRange
deriving DecidableEq, Repr

deriving instance DecidableEq for Except

/-- Python `str.isdigit` (ASCII level): non-empty and all digits. -/
def pyStrIsDigit (s : String) : Bool :=
  !s.toList.isEmpty && s.toList.all Char.isDigit

/-- Python `str.isalpha` (ASCII level): non-empty and all letters. -/
def pyStrIsAlpha (s : String) : Bool :=
  !s.toList.isEmpty && s.toList.all Char.isAlpha

/-- Python `str.lower` (ASCII level). -/
def pyLower (s : String) : String :=
  String.mk (s.toList.map Char.toLower)

/-- Gregorian leap-year rule, as in `calendar`/`datetime`. -/
def isLeap (y : Nat) : Bool :=
  (y % 4 == 0 && y % 100 != 0) || (y % 400 == 0)

/-- Length of a month, as validated by the `datetime.date` constructor. -/
def daysInMonth (y m : Nat) : Nat :=
  if m = 2 then (if isLeap y then 29 else 28)
  else if m = 4 ∨ m = 6 ∨ m = 9 ∨ m = 11 then 30
  else 31

/-- A calendar date as stored by `datetime.date`: year, month, day. -/
structure PDate where
  year : Nat
  month : Nat
  day : Nat
deriving DecidableEq, Repr

/-- The range check performed by the `datetime.date` constructor
(`MINYEAR = 1`, `MAXYEAR = 9999`). -/
def PDate.valid (d : PDate) : Bool :=
  1 ≤ d.year && d.year ≤ 9999 && 1 ≤ d.month && d.month ≤ 12 &&
    1 ≤ d.day && d.day ≤ daysInMonth d.year d.month

/-- Days in year `y` strictly before month `m` (for `m` in 1..12). -/
def daysBeforeMonth (y : Nat) : Nat → Nat
  | 0 => 0
  | 1 => 0
  | m + 2 => daysBeforeMonth y (m + 1) + daysInMonth y (m + 1)

/-- Days strictly before January 1 of year `y` in the proleptic Gregorian
calendar (as in `datetime.date.toordinal`). -/
def daysBeforeYear (y : Nat) : Nat :=
  365 * (y - 1) + ((y - 1) / 4 + (y - 1) / 400 - (y - 1) / 100)

/-- Python `date.toordinal()`: day 1 is 0001-01-01. -/
def rataDie (d : PDate) : Nat :=
  daysBeforeYear d.year + daysBeforeMonth d.year d.month + d.day

/-- Python `date.weekday()`: Monday = 0 … Sunday = 6
(0001-01-01 is a Monday). -/
def weekday (d : PDate) : Nat :=
  (rataDie d + 6) % 7

/-- Python `(a - b).days` for dates: difference of ordinals. -/
def dateDiff (a b : PDate) : Int :=
  (rataDie a : Int) - (rataDie b : Int)

/-- Python `date` comparison: lexicographic on (year, month, day). -/
def dateLt (a b : PDate) : Bool :=
  a.year < b.year ||
    (a.year == b.year &&
      (a.month < b.month || (a.month == b.month && a.day < b.day)))

/-- Python `d.replace(year=y)`: rebuilds the date, re-running the
constructor's validation (raises `ValueError` when e.g. Feb 29 lands in a
non-leap year). -/
def pyReplaceYear (d : PDate) (y : Nat) : Option PDate :=
  let d' : PDate := ⟨y, d.month, d.day⟩
  if d'.valid then some d' else none

/-- Successor day in the calendar (the effect of adding `timedelta(days=1)`). -/
def nextDay (d : PDate) : PDate :=
  if d.day < daysInMonth d.year d.month then ⟨d.year, d.month, d.day + 1⟩
  else if d.month < 12 then ⟨d.year, d.month + 1, 1⟩
  else ⟨d.year + 1, 1, 1⟩

/-- Python `d + timedelta(days=n)` for `n ≥ 0`. -/
def addDays (d : PDate) : Nat → PDate
  | 0 => d
  | n + 1 => addDays (nextDay d) n

/-- AddressBook.find_next_weekday: `days_ahead = weekday - start.weekday()`;
when `days_ahead <= 0` add 7; return `start + timedelta(days=days_ahead)`. -/
def find_next_weekday (start : PDate) (wd : Nat) : PDate :=
  let daysAhead : Int := (wd : Int) - (weekday start : Int)
  let daysAhead' : Int := if daysAhead ≤ 0 then daysAhead + 7 else daysAhead
  addDays start daysAhead'.toNat

/-- AddressBook.adjust_for_weekend: push Saturday/Sunday to the next
Monday (weekday 0). -/
def adjust_for_weekend (birthday : PDate) : PDate :=
  if 5 ≤ weekday birthday then find_next_weekday birthday 0 else birthday

/-- Two-digit zero-padded field of `strftime`. -/
def pad2 (n : Nat) : String :=
  if n < 10 then "0" ++ toString n else toString n

/-- Four-digit zero-padded field of `strftime`. -/
def pad4 (n : Nat) : String :=
  if n < 10 then "000" ++ toString n
  else if n < 100 then "00" ++ toString n
  else if n < 1000 then "0" ++ toString n
  else toString n

/-- AddressBook.date_to_string: `d.strftime('%d.%m.%Y')`. -/
def date_to_string (d : PDate) : String :=
  pad2 d.day ++ "." ++ pad2 d.month ++ "." ++ pad4 d.year

/-- Numeric value of an ASCII digit. -/
def digitVal (c : Char) : Nat :=
  c.toNat - '0'.toNat

/-- One field of CPython `strptime` for `%d` (pattern
`3[0-1]|[1-2]\d|0[1-9]|[1-9]| [1-9]`, i.e. two digits with value `1..31`,
a single digit `1..9`, or a space followed by a digit `1..9`) or `%m`
(`1[0-2]|0[1-9]|[1-9]`, two digits with value `1..12` or a single digit
`1..9`; no space-padded alternative).  `spacePad` selects the `%d` variant.
A two-digit candidate that fails its bound cannot be rescued by regex
backtracking to the one-digit branch, because the pattern then requires a
literal dot where the second digit stands, and the space-padded branch only
applies when the first character is a space (never a digit), so the
deterministic parse below is equivalent to the alternation. -/
def parseDayMonth (spacePad : Bool) (bound : Nat) :
    List Char → Option (Nat × List Char)
  | c1 :: c2 :: rest =>
    if c1.isDigit && c2.isDigit then
      if 1 ≤ 10 * digitVal c1 + digitVal c2 &&
          10 * digitVal c1 + digitVal c2 ≤ bound then
        some (10 * digitVal c1 + digitVal c2, rest)
      else none
    else if c1.isDigit && 1 ≤ digitVal c1 then some (digitVal c1, c2 :: rest)
    else if spacePad && c1 = ' ' && c2.isDigit && 1 ≤ digitVal c2 then
      some (digitVal c2, rest)
    else none
  | [c1] => if c1.isDigit && 1 ≤ digitVal c1 then some (digitVal c1, []) else none
  | [] => none

/-- The `%Y` field of CPython `strptime`: exactly four digits. -/
def parseYear4 : List Char → Option (Nat × List Char)
  | c1 :: c2 :: c3 :: c4 :: rest =>
    if c1.isDigit && c2.isDigit && c3.isDigit && c4.isDigit then
      some (1000 * digitVal c1 + 100 * digitVal c2 + 10 * digitVal c3 + digitVal c4, rest)
    else none
  | _ => none

/-- Model of `datetime.strptime(value, "%d.%m.%Y")`: match the whole string
against day, literal dot, month, literal dot, four-digit year (raising
`ValueError` on leftover input), then build the date, which re-checks
`1 ≤ year` and `day ≤ daysInMonth` and otherwise raises `ValueError`. -/
def pyStrptimeDMY (s : String) : Option PDate :=
  match parseDayMonth true 31 s.toList with
  | none => none
  | some (d, r1) =>
    match r1 with
    | [] => none
    | c1 :: r2 =>
      if c1 = '.' then
        match parseDayMonth false 12 r2 with
        | none => none
        | some (m, r3) =>
          match r3 with
          | [] => none
          | c2 :: r4 =>
            if c2 = '.' then
              match parseYear4 r4 with
              | none => none
              | some (y, r5) =>
                match r5 with
                | [] =>
                  if 1 ≤ y && d ≤ daysInMonth y m then some ⟨y, m, d⟩ else none
                | _ => none
            else none
      else none

/-- Birthday field: Birthday.__init__ validates the string with
`strptime`; the stored `value` is the original string and `as_date`
re-parses it, so the model carries the parse result alongside. -/
structure Birthday where
  value : String
  date : PDate
deriving DecidableEq, Repr

/-- Birthday.__init__: `ValueError` (invalid format) unless the string
parses under `%d.%m.%Y` into a valid date. -/
def mkBirthday (value : String) : Except Err Birthday :=
  match pyStrptimeDMY value with
  | none => .error .invalidFormat
  | some d => .ok ⟨value, d⟩

/-- Phone.__init__ via Phone._validate_phone: `value.isdigit()` first,
then `len(value) == 10`. -/
def mkPhone (value : String) : Except Err String :=
  if !pyStrIsDigit value then .error .invalidFormat
  else if value.length ≠ 10 then .error .invalidFormat
  else .ok value

/-- Name.__init__ via Name._validate_name: `value.isalpha()`. -/
def mkName (value : String) : Except Err String :=
  if pyStrIsAlpha value then .ok value else .error .invalidFormat

/-- Record: validated name, list of validated phone values, optional
birthday. -/
structure Record where
  name : String
  phones : List String
  birthday : Option Birthday
deriving DecidableEq, Repr

/-- Record.__init__: validate the name; start with no phones and no
birthday. -/
def mkRecord (name : String) : Except Err Record :=
  match mkName name with
  | .error e => .error e
  | .ok n => .ok ⟨n, [], none⟩

/-- Record.add_phone: validate first, then reject a duplicate value, then
append. -/
def add_phone (r : Record) (phone : String) : Record × Option Err :=
  match mkPhone phone with
  | .error e => (r, some e)
  | .ok p =>
    if r.phones.any (fun q => q == p) then (r, some .duplicatePhone)
    else ({ r with phones := r.phones ++ [p] }, none)

/-- Record.remove_phone: keep every phone whose value differs (no error
when nothing matches). -/
def remove_phone (r : Record) (phone : String) : Record × Option Err :=
  ({ r with phones := r.phones.filter (fun q => q != phone) }, none)

/-- Replace the first element equal to `old` by `new`; `none` when no
element matches.  This mirrors the indexed loop in Record.edit_phone. -/
def replaceFirst (old new : String) : List String → Option (List String)
  | [] => none
  | p :: ps =>
    if p = old then some (new :: ps)
    else (replaceFirst old new ps).map (fun l => p :: l)

/-- Record.edit_phone: scan for the first phone equal to `old`; when the
scan finds none, raise not-found; at the match, `Phone(new)` is evaluated
(validating `new`) before the slot is overwritten. -/
def edit_phone (r : Record) (old new : String) : Record × Option Err :=
  match replaceFirst old new r.phones with
  | none => (r, some .notFound)
  | some ps =>
    match mkPhone new with
    | .error e => (r, some e)
    | .ok _ => ({ r with phones := ps }, none)

/-- Record.find_phone: first phone with the given value, else none. -/
def find_phone (r : Record) (phone : String) : Option String :=
  r.phones.find? (fun p => p == phone)

/-- Record.add_birthday: a falsy (empty) string is a silent no-op;
otherwise validate and overwrite. -/
def add_birthday (r : Record) (birthday : String) : Record × Option Err :=
  if birthday = "" then (r, none)
  else
    match mkBirthday birthday with
    | .error e => (r, some e)
    | .ok b => ({ r with birthday := some b }, none)

/-- AddressBook: the `UserDict` data, an insertion-ordered association
list with the Python-dict update rule (updating a present key keeps its
slot, a new key is appended). -/
structure AddressBook where
  data : List (String × Record)
deriving DecidableEq, Repr

/-- Python dict `d[k] = v`. -/
def dictSet : List (String × Record) → String → Record → List (String × Record)
  | [], k, v => [(k, v)]
  | (k', v') :: rest, k, v =>
    if k' = k then (k, v) :: rest else (k', v') :: dictSet rest k v

/-- Python dict `d.get(k)`. -/
def dictGet : List (String × Record) → String → Option Record
  | [], _ => none
  | (k', v') :: rest, k => if k' = k then some v' else dictGet rest k

/-- Python dict `d.pop(k)`: the remaining entries, or `none` (KeyError)
when the key is absent. -/
def dictPop : List (String × Record) → String → Option (List (String × Record))
  | [], _ => none
  | (k', v') :: rest, k =>
    if k' = k then some rest else (dictPop rest k).map (fun l => (k', v') :: l)

/-- AddressBook.add_record: store under `record.name.value.lower()`. -/
def add_record (book : AddressBook) (r : Record) : AddressBook :=
  ⟨dictSet book.data (pyLower r.name) r⟩

/-- AddressBook.find: look up `name.lower()`. -/
def find (book : AddressBook) (name : String) : Option Record :=
  dictGet book.data (pyLower name)

/-- AddressBook.delete: `self.data.pop(name)` — note the raw `name`, not
`name.lower()` — re-raising a missing key as the not-found error. -/
def delete (book : AddressBook) (name : String) : AddressBook × Option Err :=
  match dictPop book.data name with
  | none => (book, some .notFound)
  | some d => (⟨d⟩, none)

/-- Loop body of AddressBook.get_upcoming_birthdays for one record:
skip a record without a birthday; project the birthday onto `today`'s year
(`date.replace`, which can raise); if that lies strictly before `today`,
re-project onto the next year (which can also raise); keep it when the day
difference from `today` is between 0 and `days`; weekend dates are adjusted;
emit the name with the formatted congratulation date. -/
def process_record (r : Record) (today : PDate) (days : Int) :
    Except Err (Option (String × String)) :=
  match r.birthday with
  | none => .ok none
  | some bd =>
    match pyReplaceYear bd.date today.year with
    | none => .error .dateOutOfRange
    | some b1 =>
      match (if dateLt b1 today then pyReplaceYear b1 (today.year + 1) else some b1) with
      | none => .error .dateOutOfRange
      | some b2 =>
        if 0 ≤ dateDiff b2 today ∧ dateDiff b2 today ≤ days then
          .ok (some (r.name,
            date_to_string (if 5 ≤ weekday b2 then adjust_for_weekend b2 else b2)))
        else .ok none

/-- The generator, eagerly collected in the order of `self.data.values()`;
the first raise aborts the whole query. -/
def process_list : List Record → PDate → Int → Except Err (List (String × String))
  | [], _, _ => .ok []
  | r :: rs, today, days =>
    match process_record r today days with
    | .error e => .error e
    | .ok none => process_list rs today days
    | .ok (some pr) => (process_list rs today days).map (fun l => pr :: l)

/-- AddressBook.get_upcoming_birthdays with `today` and `days` explicit
(the source reads `date.today()` and defaults `days` to 7). -/
def get_upcoming_birthdays (book : AddressBook) (today : PDate) (days : Int) :
    Except Err (List (String × String)) :=
  process_list (book.data.map Prod.snd) today days

/-! Specification-side predicates (written from the specification's words,
for comparison with the implementation). -/

/-- Exact shape the specification claims for a birthday string: a 2-digit
day, a dot, a 2-digit month, a dot and a 4-digit year, denoting a valid
calendar date. -/
def specExactFormatDDMMYYYY (s : String) : Bool :=
  match s.toList with
  | [d1, d2, '.', m1, m2, '.', y1, y2, y3, y4] =>
    d1.isDigit && d2.isDigit && m1.isDigit && m2.isDigit &&
      y1.isDigit && y2.isDigit && y3.isDigit && y4.isDigit &&
      (let d := 10 * digitVal d1 + digitVal d2
       let m := 10 * digitVal m1 + digitVal m2
       let y := 1000 * digitVal y1 + 100 * digitVal y2 +
         10 * digitVal y3 + digitVal y4
       1 ≤ d && 1 ≤ m && m ≤ 12 && 1 ≤ y && d ≤ daysInMonth y m)
  | _ => false

/-- Value denoted by a list of ASCII digits. -/
def digitsToNat (l : List Char) : Nat :=
  l.foldl (fun a c => 10 * a + digitVal c) 0

/-- One admissible day token of `%d` with its value: either 1 or 2 digits
denoting `d`, or (the space-padded alternative ` [1-9]`) a space followed by
a digit denoting `d`. -/
def dayTokenVal (ds : List Char) (d : Nat) : Prop :=
  (ds.all Char.isDigit = true ∧ (ds.length = 1 ∨ ds.length = 2) ∧
    d = digitsToNat ds) ∨
  (∃ c, ds = [' ', c] ∧ c.isDigit = true ∧ d = digitVal c)

/-- Declarative characterisation of the strings the Birthday constructor
actually accepts: a day token (1 or 2 digits, or a space followed by a
digit), a dot, a 1- or 2-digit month, a dot and a 4-digit year (nothing
more), with day ≥ 1, month in 1..12, year ≥ 1 and the day within that
month's length. -/
def birthdayLenientShape (s : String) : Prop :=
  ∃ (ds ms ys : List Char) (d : Nat),
    s.toList = ds ++ '.' :: (ms ++ '.' :: ys) ∧
    dayTokenVal ds d ∧
    ms.all Char.isDigit = true ∧ (ms.length = 1 ∨ ms.length = 2) ∧
    ys.all Char.isDigit = true ∧ ys.length = 4 ∧
    1 ≤ d ∧ d ≤ 31 ∧
    1 ≤ digitsToNat ms ∧ digitsToNat ms ≤ 12 ∧
    1 ≤ digitsToNat ys ∧
    d ≤ daysInMonth (digitsToNat ys) (digitsToNat ms)

/-! Concrete scenarios used by the claims. -/

/-- Record("Jane") with no phones and no birthday. -/
def janeRecord : Record := ⟨"Jane", [], none⟩

/-- An address book holding only Jane (stored under the key "jane"). -/
def bookJane : AddressBook := add_record ⟨[]⟩ janeRecord

/-- Record("John") carrying two valid phones. -/
def johnRecord : Record := ⟨"John", ["1234567890", "5555555555"], none⟩

/-- The three-record book of the fixed `upcomingBirthdays` scenario. -/
def bookC5 : AddressBook :=
  ⟨[("a", ⟨"A", [], some ⟨"20.10.2025", ⟨2025, 10, 20⟩⟩⟩),
    ("b", ⟨"B", [], some ⟨"18.10.2025", ⟨2025, 10, 18⟩⟩⟩),
    ("c", ⟨"C", [], some ⟨"01.01.2025", ⟨2025, 1, 1⟩⟩⟩)]⟩

/-- A book with one record whose birthday falls on 18 October (a Saturday
in 2025). -/
def bookAnn : AddressBook :=
  ⟨[("ann", ⟨"Ann", [], some ⟨"18.10.2020", ⟨2020, 10, 18⟩⟩⟩)]⟩

/-- A book with one record whose birthday falls on 20 October (a Monday
in 2025). -/
def bookBob : AddressBook :=
  ⟨[("bob", ⟨"Bob", [], some ⟨"20.10.1990", ⟨1990, 10, 20⟩⟩⟩)]⟩

/-- A book with one record whose birthday is February 29. -/
def bookLeo : AddressBook :=
  ⟨[("leo", ⟨"Leo", [], some ⟨"29.02.2000", ⟨2000, 2, 29⟩⟩⟩)]⟩

/-! Claim theorems and their supporting lemmas. -/

theorem mkPhone_ok_eq {s t : String} (h : mkPhone s = .ok t) : t = s := by
  unfold mkPhone at h
  split at h
  · exact absurd h (by simp)
  · split at h
    · exact absurd h (by simp)
    · simpa using h.symm

theorem mkPhone_ok_iff {s : String} :
    mkPhone s = .ok s ↔ (s.length = 10 ∧ s.toList.all Char.isDigit = true) := by
  cases s with
  | mk data =>
    cases data with
    | nil => decide
    | cons c cs =>
      by_cases hd : (c :: cs).all Char.isDigit
      · by_cases hl : (c :: cs).length = 10
        · simp [mkPhone, pyStrIsDigit, String.toList, String.length, hd, hl]
        · simp [mkPhone, pyStrIsDigit, String.toList, String.length, hd, hl]
      · simp [mkPhone, pyStrIsDigit, String.toList, String.length, hd]

theorem replaceFirst_eq_none {old new : String} :
    ∀ {l : List String}, replaceFirst old new l = none ↔ old ∉ l := by
  intro l
  induction l with
  | nil => simp [replaceFirst]
  | cons p ps ih =>
    by_cases h : p = old
    · subst h
      simp [replaceFirst]
    · have h' : ¬ old = p := fun hh => h hh.symm
      simp [replaceFirst, h, Option.map_eq_none', ih, h']

theorem mem_replaceFirst {old new x : String} :
    ∀ {l l' : List String}, replaceFirst old new l = some l' → x ∈ l' →
      x = new ∨ x ∈ l := by
  intro l
  induction l with
  | nil => intro l' h; simp [replaceFirst] at h
  | cons p ps ih =>
    intro l' h hx
    by_cases hp : p = old
    · rw [replaceFirst, if_pos hp] at h
      cases h
      rcases List.mem_cons.mp hx with hx | hx
      · exact Or.inl hx
      · exact Or.inr (List.mem_cons_of_mem _ hx)
    · rw [replaceFirst, if_neg hp] at h
      cases hrec : replaceFirst old new ps with
      | none => rw [hrec] at h; simp at h
      | some ps' =>
        rw [hrec] at h
        simp only [Option.map_some'] at h
        cases h
        rcases List.mem_cons.mp hx with hx | hx
        · exact Or.inr (hx ▸ List.mem_cons_self _ _)
        · rcases ih hrec hx with hx' | hx'
          · exact Or.inl hx'
          · exact Or.inr (List.mem_cons_of_mem _ hx')

theorem replaceFirst_nodup {old new : String} :
    ∀ {l l' : List String}, replaceFirst old new l = some l' → l.Nodup →
      (new = old ∨ new ∉ l) → l'.Nodup := by
  intro l
  induction l with
  | nil => intro l' h; simp [replaceFirst] at h
  | cons p ps ih =>
    intro l' h hnd hnew
    have hndp := List.nodup_cons.mp hnd
    by_cases hp : p = old
    · rw [replaceFirst, if_pos hp] at h
      cases h
      refine List.nodup_cons.mpr ⟨?_, hndp.2⟩
      rcases hnew with hnew | hnew
      · rw [hnew, ← hp]; exact hndp.1
      · exact fun hmem => hnew (List.mem_cons_of_mem _ hmem)
    · rw [replaceFirst, if_neg hp] at h
      cases hrec : replaceFirst old new ps with
      | none => rw [hrec] at h; simp at h
      | some ps' =>
        rw [hrec] at h
        simp only [Option.map_some'] at h
        cases h
        refine List.nodup_cons.mpr ⟨?_, ?_⟩
        · intro hmem
          rcases mem_replaceFirst hrec hmem with hx | hx
          · rcases hnew with hnew | hnew
            · exact hp (hx.trans hnew)
            · exact hnew (by rw [← hx]; exact List.mem_cons_self _ _)
          · exact hndp.1 hx
        · refine ih hrec hndp.2 ?_
          rcases hnew with hnew | hnew
          · exact Or.inl hnew
          · exact Or.inr fun hmem => hnew (List.mem_cons_of_mem _ hmem)

theorem replaceFirst_decomp (old new : String) :
    ∀ (pre post : List String), old ∉ pre →
      replaceFirst old new (pre ++ old :: post) = some (pre ++ new :: post) := by
  intro pre
  induction pre with
  | nil => intro post _; simp [replaceFirst]
  | cons p ps ih =>
    intro post hpre
    have hp : p ≠ old := fun hh => hpre (hh ▸ List.mem_cons_self _ _)
    have hps : old ∉ ps := fun hh => hpre (List.mem_cons_of_mem _ hh)
    rw [List.cons_append, replaceFirst, if_neg hp, ih post hps,
      Option.map_some', List.cons_append]

theorem replaceFirst_isSome_of_mem {old new : String} {l : List String}
    (h : old ∈ l) : ∃ l', replaceFirst old new l = some l' := by
  cases hrec : replaceFirst old new l with
  | none => exact absurd h (replaceFirst_eq_none.mp hrec)
  | some l' => exact ⟨l', rfl⟩

theorem dictGet_dictSet_self (l : List (String × Record)) (k : String) (r : Record) :
    dictGet (dictSet l k r) k = some r := by
  induction l with
  | nil => simp [dictSet, dictGet]
  | cons kv rest ih =>
    by_cases h : kv.1 = k
    · simp [dictSet, dictGet, h]
    · simp [dictSet, dictGet, h, ih]

theorem dictGet_eq_none_of_forall {l : List (String × Record)} {k : String}
    (h : ∀ kv ∈ l, kv.1 ≠ k) : dictGet l k = none := by
  induction l with
  | nil => rfl
  | cons kv rest ih =>
    have hk : kv.1 ≠ k := h kv (List.mem_cons_self _ _)
    simp only [dictGet, if_neg hk]
    exact ih fun kv' hm => h kv' (List.mem_cons_of_mem _ hm)

/-- C1: the specification says `delete` removes the record stored under the
case-insensitive key, so deleting with the original mixed-case name after
adding the record must succeed.  The code pops the raw name while
`add_record` stored the lower-cased key, so `delete "Jane"` raises not-found
although `find` (which does lower-case) still returns the record; only the
already-lower-cased spelling deletes it.  This contradicts the code's own
usage example (`book.delete("Jane")` after `add_record(Record("Jane"))`). -/
theorem c1_delete_uses_raw_name :
    mkRecord "Jane" = .ok janeRecord ∧
    bookJane.data = [("jane", janeRecord)] ∧
    find bookJane "Jane" = some janeRecord ∧
    find bookJane "JANE" = some janeRecord ∧
    delete bookJane "Jane" = (bookJane, some .notFound) ∧
    delete bookJane "jane" = (⟨[]⟩, none) := by
  decide

/-- C5: with today = 2025-10-15 and a 7-day horizon, the record with
birthday 20.10.2025 (a Monday) is emitted with congratulation date
20.10.2025, the record with birthday 18.10.2025 (a Saturday) is emitted
with congratulation date 20.10.2025 (the next Monday), and the record with
birthday 01.01.2025 (projected to 01.01.2026, outside the horizon) is not
emitted. -/
theorem c5_fixed_scenario :
    mkBirthday "20.10.2025" = .ok ⟨"20.10.2025", ⟨2025, 10, 20⟩⟩ ∧
    mkBirthday "18.10.2025" = .ok ⟨"18.10.2025", ⟨2025, 10, 18⟩⟩ ∧
    mkBirthday "01.01.2025" = .ok ⟨"01.01.2025", ⟨2025, 1, 1⟩⟩ ∧
    weekday ⟨2025, 10, 20⟩ = 0 ∧
    weekday ⟨2025, 10, 18⟩ = 5 ∧
    get_upcoming_birthdays bookC5 ⟨2025, 10, 15⟩ 7 =
      .ok [("A", "20.10.2025"), ("B", "20.10.2025")] ∧
    (∀ p ∈ [(("A" : String), ("20.10.2025" : String)),
            (("B" : String), ("20.10.2025" : String))], p.1 ≠ "C") := by
  decide

/-- C2 counterexample: starting from a record built by two successful
`add_phone` calls, `edit_phone "5555555555" "1234567890"` succeeds although
"1234567890" is already present on the record, leaving the phone list with
two equal values — the no-duplicate invariant is not preserved by
`edit_phone`. -/
theorem c2_edit_phone_breaks_nodup :
    (add_phone (add_phone ⟨"John", [], none⟩ "1234567890").1 "5555555555").1 =
      johnRecord ∧
    edit_phone johnRecord "5555555555" "1234567890" =
      (⟨"John", ["1234567890", "1234567890"], none⟩, none) ∧
    ¬ (["1234567890", "1234567890"] : List String).Nodup := by
  decide

/-- C3 counterexample: "1.1.2025" is not of the exact DD.MM.YYYY shape
(2-digit day and month), yet Birthday construction succeeds on it, because
`strptime`'s `%d` and `%m` also accept a single digit. -/
theorem c3_single_digit_accepted :
    mkBirthday "1.1.2025" = .ok ⟨"1.1.2025", ⟨2025, 1, 1⟩⟩ ∧
    specExactFormatDDMMYYYY "1.1.2025" = false := by
  decide

/-- C6 counterexample: today = 2025-10-18 is a Saturday; the record whose
birthday month and day equal today's is emitted, but its congratulation
date is weekend-shifted to 20.10.2025 instead of being today. -/
theorem c6_weekend_today_not_emitted_as_today :
    weekday ⟨2025, 10, 18⟩ = 5 ∧
    get_upcoming_birthdays bookAnn ⟨2025, 10, 18⟩ 0 =
      .ok [("Ann", "20.10.2025")] ∧
    date_to_string ⟨2025, 10, 18⟩ = "18.10.2025" ∧
    ("Ann", "18.10.2025") ∉
      [(("Ann" : String), ("20.10.2025" : String))] := by
  decide

/-- C2 amended: the no-duplicate invariant on a record's phone list is
preserved by `add_phone` (which raises the duplicate error on an equal,
valid value) and by `remove_phone`; `edit_phone old new` preserves it
provided `new` equals `old` or is not already on the record — when `new`
equals a different phone already present, `edit_phone` introduces a
duplicate (see the counterexample). -/
theorem c2_nodup_invariant_amended (r : Record) (p old new : String)
    (hnd : r.phones.Nodup) :
    (add_phone r p).1.phones.Nodup ∧
    (mkPhone p = .ok p → p ∈ r.phones →
      add_phone r p = (r, some .duplicatePhone)) ∧
    (remove_phone r p).1.phones.Nodup ∧
    ((new = old ∨ new ∉ r.phones) → (edit_phone r old new).1.phones.Nodup) := by
  refine ⟨?_, ?_, ?_, ?_⟩
  · unfold add_phone
    cases hmk : mkPhone p with
    | error e => simpa using hnd
    | ok q =>
      have hq : q = p := mkPhone_ok_eq hmk
      subst hq
      by_cases hdup : r.phones.any (fun x => x == q) = true
      · simpa [hdup] using hnd
      · have hnmem : q ∉ r.phones := by
          intro hmem
          exact hdup (List.any_eq_true.mpr ⟨q, hmem, by simp⟩)
        simp only [hdup, if_neg, Bool.false_eq_true, if_false]
        refine List.Nodup.append hnd (List.nodup_singleton q) ?_
        simpa [List.disjoint_singleton] using hnmem
  · intro hmk hmem
    unfold add_phone
    rw [hmk]
    have : r.phones.any (fun x => x == p) = true :=
      List.any_eq_true.mpr ⟨p, hmem, by simp⟩
    simp [this]
  · exact List.Nodup.filter _ hnd
  · intro hnew
    unfold edit_phone
    cases hrep : replaceFirst old new r.phones with
    | none => simpa using hnd
    | some ps =>
      cases hmk : mkPhone new with
      | error e => simpa using hnd
      | ok q => simpa using replaceFirst_nodup hrep hnd hnew

/-- C2 amended witness: concrete instances discharging each hypothesis. -/
theorem c2_nodup_invariant_amended_witness :
    (add_phone johnRecord "1112223333").1.phones.Nodup ∧
    add_phone johnRecord "5555555555" = (johnRecord, some .duplicatePhone) ∧
    (remove_phone johnRecord "5555555555").1.phones.Nodup ∧
    (edit_phone johnRecord "1234567890" "1112223333").1.phones.Nodup := by
  have h := c2_nodup_invariant_amended johnRecord "5555555555" "1234567890"
    "1112223333" (by decide)
  have h' := c2_nodup_invariant_amended johnRecord "1112223333" "1234567890"
    "1112223333" (by decide)
  exact ⟨h'.1, h.2.1 (by decide) (by decide), h.2.2.1,
    h.2.2.2 (Or.inr (by decide))⟩

/-- C4: PhoneNumber construction succeeds exactly on strings of 10 decimal
digits, and fails with the invalid-format error on every other string. -/
theorem c4_phone_validation (s : String) :
    (mkPhone s = .ok s ↔ (s.length = 10 ∧ s.toList.all Char.isDigit = true)) ∧
    (¬ (s.length = 10 ∧ s.toList.all Char.isDigit = true) →
      mkPhone s = .error .invalidFormat) := by
  refine ⟨mkPhone_ok_iff, ?_⟩
  intro hnot
  cases hmk : mkPhone s with
  | error e =>
    unfold mkPhone at hmk
    split at hmk
    · simp at hmk; simp [hmk]
    · split at hmk
      · simp at hmk; simp [hmk]
      · simp at hmk
  | ok q =>
    have hq : q = s := mkPhone_ok_eq hmk
    subst hq
    exact absurd (mkPhone_ok_iff.mp hmk) hnot

/-- C4 witness: a valid and an invalid concrete phone string. -/
theorem c4_phone_validation_witness :
    mkPhone "1234567890" = .ok "1234567890" ∧
    mkPhone "123" = .error .invalidFormat :=
  ⟨(c4_phone_validation "1234567890").1.mpr (by decide),
   (c4_phone_validation "123").2 (by decide)⟩

/-- C7: whenever `add_phone`, `edit_phone`, `add_birthday` or `delete`
reports an error, the state it returns (the record's phone list and
birthday, the book's map) is exactly the state it was given: each
operation validates before its single mutation. -/
theorem c7_failed_ops_leave_state (r : Record) (p old new bd nm : String)
    (book : AddressBook) :
    ((add_phone r p).2.isSome → (add_phone r p).1 = r) ∧
    ((edit_phone r old new).2.isSome → (edit_phone r old new).1 = r) ∧
    ((add_birthday r bd).2.isSome → (add_birthday r bd).1 = r) ∧
    ((delete book nm).2.isSome → (delete book nm).1 = book) := by
  refine ⟨?_, ?_, ?_, ?_⟩
  · unfold add_phone
    split
    · simp
    · split <;> simp
  · unfold edit_phone
    split
    · simp
    · split <;> simp
  · unfold add_birthday
    split
    · simp
    · split <;> simp
  · unfold delete
    split <;> simp

/-- C7 witness: one failing call of each kind leaves its state intact. -/
theorem c7_failed_ops_leave_state_witness :
    (add_phone johnRecord "5555555555").1 = johnRecord ∧
    (edit_phone johnRecord "9999999999" "1112223333").1 = johnRecord ∧
    (add_birthday johnRecord "31.02.2025").1 = johnRecord ∧
    (delete bookJane "Jane").1 = bookJane := by
  have h := c7_failed_ops_leave_state johnRecord "5555555555" "9999999999"
    "1112223333" "31.02.2025" "Jane" bookJane
  exact ⟨h.1 (by decide), h.2.1 (by decide), h.2.2.1 (by decide),
    h.2.2.2 (by decide)⟩

/-- C8: after `add_record r`, `find s` returns `r` for every spelling `s`
whose lower-casing equals that of `r`'s name; and on a book none of whose
keys is the lower-cased query, `find` returns none (it never raises). -/
theorem c8_find_case_insensitive (book : AddressBook) (r : Record)
    (s t : String) :
    (pyLower s = pyLower r.name → find (add_record book r) s = some r) ∧
    ((∀ kv ∈ book.data, kv.1 ≠ pyLower t) → find book t = none) := by
  constructor
  · intro h
    show dictGet (dictSet book.data (pyLower r.name) r) (pyLower s) = some r
    rw [h]
    exact dictGet_dictSet_self book.data (pyLower r.name) r
  · intro h
    exact dictGet_eq_none_of_forall h

/-- C8 witness: mixed-case find retrieves Jane; find on an empty book is
none. -/
theorem c8_find_case_insensitive_witness :
    find (add_record ⟨[]⟩ janeRecord) "JANE" = some janeRecord ∧
    find (⟨[]⟩ : AddressBook) "Jane" = none :=
  ⟨(c8_find_case_insensitive ⟨[]⟩ janeRecord "JANE" "Jane").1 (by decide),
   (c8_find_case_insensitive ⟨[]⟩ janeRecord "JANE" "Jane").2 (by decide)⟩

/-- C9 counterexample: with no phone equal to the old value and an invalid
new value, `edit_phone` raises not-found, not invalid-format — the new
value is only validated after the old one has been located. -/
theorem c9_notfound_precedes_validation :
    mkPhone "123" = .error .invalidFormat ∧
    edit_phone ⟨"John", ["1234567890"], none⟩ "9999999999" "123" =
      (⟨"John", ["1234567890"], none⟩, some .notFound) ∧
    Err.notFound ≠ Err.invalidFormat := by
  decide

/-- C9 amended: `edit_phone old new` fails with not-found when no phone
equals `old` (even when `new` is invalid — the new value is validated only
after `old` is located); when `old` is present and `new` is a valid phone,
it replaces the first matching entry in place, preserving its position and
all other phones; when `old` is present and `new` is invalid, it fails
with invalid-format. -/
theorem c9_edit_phone_amended (r : Record) (old new : String) :
    (old ∉ r.phones → edit_phone r old new = (r, some .notFound)) ∧
    (∀ pre post, r.phones = pre ++ old :: post → old ∉ pre →
      mkPhone new = .ok new →
      edit_phone r old new = ({ r with phones := pre ++ new :: post }, none)) ∧
    (old ∈ r.phones → mkPhone new = .error .invalidFormat →
      edit_phone r old new = (r, some .invalidFormat)) := by
  refine ⟨?_, ?_, ?_⟩
  · intro hmem
    unfold edit_phone
    rw [replaceFirst_eq_none.mpr hmem]
  · intro pre post hphones hpre hmk
    unfold edit_phone
    rw [hphones, replaceFirst_decomp old new pre post hpre, hmk]
  · intro hmem hmk
    obtain ⟨l', hrep⟩ := @replaceFirst_isSome_of_mem old new r.phones hmem
    unfold edit_phone
    rw [hrep, hmk]

theorem dateLt_irrefl (d : PDate) : dateLt d d = false := by
  simp [dateLt]

theorem process_list_mem {today : PDate} {days : Int} :
    ∀ {rs : List Record} {l : List (String × String)} {r : Record}
      {pr : String × String},
      process_list rs today days = .ok l → r ∈ rs →
      process_record r today days = .ok (some pr) → pr ∈ l := by
  intro rs
  induction rs with
  | nil => intro l r pr _ hmem; simp at hmem
  | cons h t ih =>
    intro l r pr hok hmem hpr
    rw [process_list] at hok
    rcases List.mem_cons.mp hmem with hm | hm
    · subst hm
      rw [hpr] at hok
      cases ht : process_list t today days with
      | error e => rw [ht] at hok; simp [Except.map] at hok
      | ok l' =>
        rw [ht] at hok
        simp only [Except.map] at hok
        cases hok
        exact List.mem_cons_self _ _
    · cases hh : process_record h today days with
      | error e => rw [hh] at hok; simp at hok
      | ok o =>
        rw [hh] at hok
        cases o with
        | none => exact ih hok hm hpr
        | some q =>
          cases ht : process_list t today days with
          | error e => rw [ht] at hok; simp [Except.map] at hok
          | ok l' =>
            rw [ht] at hok
            simp only [Except.map] at hok
            cases hok
            exact List.mem_cons_of_mem _ (ih ht hm hpr)

theorem process_record_error_val {r : Record} {today : PDate} {days : Int}
    {e : Err} (h : process_record r today days = .error e) :
    e = .dateOutOfRange := by
  unfold process_record at h
  split at h
  · simp at h
  · split at h
    · simp at h
      exact h.symm
    · split at h
      · simp at h
        exact h.symm
      · split at h
        · simp at h
        · simp at h

theorem process_list_error_dateOutOfRange {today : PDate} {days : Int} :
    ∀ {rs : List Record} {r : Record} {e : Err}, r ∈ rs →
      process_record r today days = .error e →
      process_list rs today days = .error .dateOutOfRange := by
  intro rs
  induction rs with
  | nil => intro r e hmem _; simp at hmem
  | cons h t ih =>
    intro r e hmem herr
    rw [process_list]
    rcases List.mem_cons.mp hmem with hm | hm
    · subst hm
      rw [herr, process_record_error_val herr]
    · cases hh : process_record h today days with
      | error e' => rw [process_record_error_val hh]
      | ok o =>
        cases o with
        | none => exact ih hm herr
        | some q => rw [ih hm herr]; rfl

/-- C6 amended: a record whose birthday's month and day equal today's is
emitted by the query with a zero-day horizon whenever the query returns;
the emitted congratulation date equals today when today is a weekday
(Monday through Friday), while on a Saturday or Sunday it is instead the
weekend adjustment of today (the next-Monday shift of
`find_next_weekday`), as the counterexample shows. -/
theorem c6_today_birthday_amended (book : AddressBook) (r : Record)
    (bd : Birthday) (today : PDate) (l : List (String × String))
    (hmem : r ∈ book.data.map Prod.snd) (hbd : r.birthday = some bd)
    (hm : bd.date.month = today.month) (hd : bd.date.day = today.day)
    (hv : today.valid = true)
    (hok : get_upcoming_birthdays book today 0 = .ok l) :
    (weekday today < 5 → (r.name, date_to_string today) ∈ l) ∧
    (5 ≤ weekday today →
      (r.name, date_to_string (find_next_weekday today 0)) ∈ l) := by
  have hrep : pyReplaceYear bd.date today.year = some today := by
    simp only [pyReplaceYear, hm, hd]
    simpa using hv
  have hcore : process_record r today 0 =
      .ok (some (r.name, date_to_string
        (if 5 ≤ weekday today then adjust_for_weekend today else today))) := by
    simp only [process_record, hbd, hrep, dateLt_irrefl]
    simp [dateDiff]
  have hok' : process_list (book.data.map Prod.snd) today 0 = .ok l := hok
  constructor
  · intro hw
    have h5 : ¬ 5 ≤ weekday today := by omega
    rw [if_neg h5] at hcore
    exact process_list_mem hok' hmem hcore
  · intro hw
    rw [if_pos hw] at hcore
    rw [adjust_for_weekend, if_pos hw] at hcore
    exact process_list_mem hok' hmem hcore

/-- C6 amended witness: today = 2025-10-20 is a Monday; Bob's birthday
matches it and is emitted with congratulation date equal to today. -/
theorem c6_today_birthday_amended_witness :
    ("Bob", "20.10.2025") ∈ [(("Bob" : String), ("20.10.2025" : String))] :=
  (c6_today_birthday_amended bookBob ⟨"Bob", [], some ⟨"20.10.1990", ⟨1990, 10, 20⟩⟩⟩
    ⟨"20.10.1990", ⟨1990, 10, 20⟩⟩ ⟨2025, 10, 20⟩
    [("Bob", "20.10.2025")] (by decide) rfl rfl rfl (by decide)
    (by decide)).1 (by decide)

/-- C10: a record whose birthday is February 29 makes
`get_upcoming_birthdays` raise (aborting the whole query, emitting no
list at all) whenever today's year is not a leap year — the projection
`replace(year=today.year)` fails — and likewise when today's year is a
leap year but Feb 29 of it lies strictly before today and the next year is
not a leap year (the second projection fails). -/
theorem c10_feb29_aborts (book : AddressBook) (r : Record) (bd : Birthday)
    (today : PDate) (days : Int)
    (hmem : r ∈ book.data.map Prod.snd) (hbd : r.birthday = some bd)
    (hm : bd.date.month = 2) (hd : bd.date.day = 29)
    (hleap : isLeap today.year = false ∨
      (isLeap today.year = true ∧ dateLt ⟨today.year, 2, 29⟩ today = true ∧
        isLeap (today.year + 1) = false)) :
    get_upcoming_birthdays book today days = .error .dateOutOfRange := by
  have herr : ∃ e, process_record r today days = .error e := by
    simp only [process_record, hbd]
    rcases hleap with hnl | ⟨hl, hlt, hnl1⟩
    · have h1 : pyReplaceYear bd.date today.year = none := by
        simp [pyReplaceYear, PDate.valid, hm, hd, daysInMonth, hnl]
      rw [h1]
      exact ⟨_, rfl⟩
    · cases h1 : pyReplaceYear bd.date today.year with
      | none => exact ⟨_, rfl⟩
      | some b1 =>
        have hb1 : b1 = ⟨today.year, 2, 29⟩ := by
          simp only [pyReplaceYear, hm, hd] at h1
          split at h1
          · exact (Option.some_inj.mp h1).symm
          · simp at h1
        subst hb1
        have h2 : pyReplaceYear ⟨today.year, 2, 29⟩ (today.year + 1) = none := by
          simp [pyReplaceYear, PDate.valid, daysInMonth, hnl1]
        simp only [hlt, h2, if_true]
        exact ⟨_, rfl⟩
  obtain ⟨e, he⟩ := herr
  show process_list (book.data.map Prod.snd) today days = .error .dateOutOfRange
  exact process_list_error_dateOutOfRange hmem he

/-- C10 witness: Leo's birthday is 29.02; with today = 2025-03-01 (2025 is
not a leap year) the whole query errors. -/
theorem c10_feb29_aborts_witness :
    get_upcoming_birthdays bookLeo ⟨2025, 3, 1⟩ 7 = .error .dateOutOfRange :=
  c10_feb29_aborts bookLeo ⟨"Leo", [], some ⟨"29.02.2000", ⟨2000, 2, 29⟩⟩⟩
    ⟨"29.02.2000", ⟨2000, 2, 29⟩⟩ ⟨2025, 3, 1⟩ 7
    (by decide) rfl rfl rfl (Or.inl (by decide))

theorem char_toNat_bounds {c : Char} (h : c.isDigit = true) :
    48 ≤ c.toNat ∧ c.toNat ≤ 57 := by
  simp only [Char.isDigit, Bool.and_eq_true, decide_eq_true_eq] at h
  exact ⟨UInt32.le_toNat_of_le (by decide) h.1,
    UInt32.toNat_le_of_le (by decide) h.2⟩

theorem digitVal_le_nine {c : Char} (h : c.isDigit = true) : digitVal c ≤ 9 := by
  have hb := char_toNat_bounds h
  unfold digitVal
  rw [show ('0' : Char).toNat = 48 from rfl]
  omega

theorem digitsToNat_one (a : Char) : digitsToNat [a] = digitVal a := by
  simp [digitsToNat]

theorem digitsToNat_two (a b : Char) :
    digitsToNat [a, b] = 10 * digitVal a + digitVal b := by
  simp [digitsToNat]

theorem digitsToNat_four (a b c d : Char) :
    digitsToNat [a, b, c, d] =
      1000 * digitVal a + 100 * digitVal b + 10 * digitVal c + digitVal d := by
  simp [digitsToNat]
  ring

theorem parseDayMonth_two {sp : Bool} {bound : Nat} {a b : Char}
    {r : List Char}
    (ha : a.isDigit = true) (hb : b.isDigit = true)
    (h1 : 1 ≤ 10 * digitVal a + digitVal b)
    (h2 : 10 * digitVal a + digitVal b ≤ bound) :
    parseDayMonth sp bound (a :: b :: r) =
      some (10 * digitVal a + digitVal b, r) := by
  simp [parseDayMonth, ha, hb, h1, h2]

theorem parseDayMonth_one_dot {sp : Bool} {bound : Nat} {a : Char}
    {r : List Char} (ha : a.isDigit = true) (h1 : 1 ≤ digitVal a) :
    parseDayMonth sp bound (a :: '.' :: r) = some (digitVal a, '.' :: r) := by
  have hdot : ('.' : Char).isDigit = false := by decide
  simp [parseDayMonth, ha, hdot, h1]

theorem parseDayMonth_space_digit {bound : Nat} {c : Char} {r : List Char}
    (hc : c.isDigit = true) (h1 : 1 ≤ digitVal c) :
    parseDayMonth true bound (' ' :: c :: r) = some (digitVal c, r) := by
  have hspd : (' ' : Char).isDigit = false := by decide
  simp [parseDayMonth, hspd, hc, h1]

theorem parseYear4_eq {a b c d : Char} {r : List Char}
    (ha : a.isDigit = true) (hb : b.isDigit = true)
    (hc : c.isDigit = true) (hd : d.isDigit = true) :
    parseYear4 (a :: b :: c :: d :: r) =
      some (1000 * digitVal a + 100 * digitVal b + 10 * digitVal c +
        digitVal d, r) := by
  simp [parseYear4, ha, hb, hc, hd]

theorem parseDayMonth_inv {sp : Bool} {bound v : Nat} {l rest : List Char}
    (h : parseDayMonth sp bound l = some (v, rest)) :
    (∃ a b, l = a :: b :: rest ∧ a.isDigit = true ∧ b.isDigit = true ∧
      v = 10 * digitVal a + digitVal b ∧ 1 ≤ v ∧ v ≤ bound) ∨
    (∃ a, l = a :: rest ∧ a.isDigit = true ∧ v = digitVal a ∧ 1 ≤ v) ∨
    (sp = true ∧ ∃ a, l = ' ' :: a :: rest ∧ a.isDigit = true ∧
      v = digitVal a ∧ 1 ≤ v) := by
  cases l with
  | nil => simp [parseDayMonth] at h
  | cons c1 t =>
    cases t with
    | nil =>
      rw [parseDayMonth] at h
      split at h
      · rename_i hcond
        simp only [Bool.and_eq_true, decide_eq_true_eq] at hcond
        injection h with h'
        injection h' with hv hr
        exact Or.inr (Or.inl ⟨c1, by rw [← hr], hcond.1, hv.symm,
          hv ▸ hcond.2⟩)
      · simp at h
    | cons c2 t' =>
      rw [parseDayMonth] at h
      split at h
      · rename_i hdig
        simp only [Bool.and_eq_true] at hdig
        split at h
        · rename_i hbnd
          simp only [Bool.and_eq_true, decide_eq_true_eq] at hbnd
          injection h with h'
          injection h' with hv hr
          exact Or.inl ⟨c1, c2, by rw [← hr], hdig.1, hdig.2, hv.symm,
            hv ▸ hbnd.1, hv ▸ hbnd.2⟩
        · simp at h
      · split at h
        · rename_i hone
          simp only [Bool.and_eq_true, decide_eq_true_eq] at hone
          injection h with h'
          injection h' with hv hr
          exact Or.inr (Or.inl ⟨c1, by rw [← hr], hone.1, hv.symm,
            hv ▸ hone.2⟩)
        · split at h
          · rename_i hspc
            simp only [Bool.and_eq_true, decide_eq_true_eq] at hspc
            injection h with h'
            injection h' with hv hr
            exact Or.inr (Or.inr ⟨hspc.1.1.1, c2,
              by rw [← hr, hspc.1.1.2], hspc.1.2, hv.symm, hv ▸ hspc.2⟩)
          · simp at h

theorem list_length_four {α : Type} {l : List α} (h : l.length = 4) :
    ∃ a b c d, l = [a, b, c, d] := by
  rcases l with _ | ⟨a, l⟩
  · simp at h
  rcases l with _ | ⟨b, l⟩
  · simp at h
  rcases l with _ | ⟨c, l⟩
  · simp at h
  rcases l with _ | ⟨d, l⟩
  · simp at h
  rcases l with _ | ⟨e, l⟩
  · exact ⟨a, b, c, d, rfl⟩
  · simp at h

theorem parseYear4_inv {v : Nat} {l rest : List Char}
    (h : parseYear4 l = some (v, rest)) :
    ∃ a b c d, l = a :: b :: c :: d :: rest ∧ a.isDigit = true ∧
      b.isDigit = true ∧ c.isDigit = true ∧ d.isDigit = true ∧
      v = 1000 * digitVal a + 100 * digitVal b + 10 * digitVal c +
        digitVal d := by
  rcases l with _ | ⟨a, l⟩
  · simp [parseYear4] at h
  rcases l with _ | ⟨b, l⟩
  · simp [parseYear4] at h
  rcases l with _ | ⟨c, l⟩
  · simp [parseYear4] at h
  rcases l with _ | ⟨d, l⟩
  · simp [parseYear4] at h
  rw [parseYear4] at h
  split at h
  · rename_i hdig
    simp only [Bool.and_eq_true] at hdig
    injection h with h'
    injection h' with hv hr
    exact ⟨a, b, c, d, by rw [← hr], hdig.1.1.1, hdig.1.1.2, hdig.1.2,
      hdig.2, hv.symm⟩
  · simp at h

theorem parseDayMonth_shape_digits {bound v : Nat} {l rest : List Char}
    (h : parseDayMonth false bound l = some (v, rest)) (hb : 9 ≤ bound) :
    ∃ ms, l = ms ++ rest ∧ ms.all Char.isDigit = true ∧
      (ms.length = 1 ∨ ms.length = 2) ∧ digitsToNat ms = v ∧
      1 ≤ v ∧ v ≤ bound := by
  rcases parseDayMonth_inv h with ⟨a, b, hl, ha, hb', hv, h1, h2⟩ |
    ⟨a, hl, ha, hv, h1⟩ | ⟨hsp, -⟩
  · exact ⟨[a, b], by simpa using hl, by simp [ha, hb'], Or.inr rfl,
      by rw [digitsToNat_two, hv], h1, h2⟩
  · refine ⟨[a], by simpa using hl, by simp [ha], Or.inl rfl,
      by rw [digitsToNat_one, hv], h1, ?_⟩
    rw [hv]
    exact le_trans (digitVal_le_nine ha) hb
  · simp at hsp

theorem parseDay_shape {v : Nat} {l rest : List Char}
    (h : parseDayMonth true 31 l = some (v, rest)) :
    ∃ ds, l = ds ++ rest ∧ dayTokenVal ds v ∧ 1 ≤ v ∧ v ≤ 31 := by
  rcases parseDayMonth_inv h with ⟨a, b, hl, ha, hb', hv, h1, h2⟩ |
    ⟨a, hl, ha, hv, h1⟩ | ⟨-, a, hl, ha, hv, h1⟩
  · exact ⟨[a, b], by simpa using hl,
      Or.inl ⟨by simp [ha, hb'], Or.inr rfl, by rw [digitsToNat_two, hv]⟩,
      h1, h2⟩
  · refine ⟨[a], by simpa using hl,
      Or.inl ⟨by simp [ha], Or.inl rfl, by rw [digitsToNat_one, hv]⟩, h1, ?_⟩
    rw [hv]
    exact le_trans (digitVal_le_nine ha) (by omega)
  · refine ⟨[' ', a], by simpa using hl, Or.inr ⟨a, rfl, ha, hv⟩, h1, ?_⟩
    rw [hv]
    exact le_trans (digitVal_le_nine ha) (by omega)

theorem parseDayMonth_shape_dot {sp : Bool} {bound : Nat} {ds r : List Char}
    (hall : ds.all Char.isDigit = true)
    (hlen : ds.length = 1 ∨ ds.length = 2)
    (h1 : 1 ≤ digitsToNat ds) (h2 : digitsToNat ds ≤ bound) :
    parseDayMonth sp bound (ds ++ '.' :: r) =
      some (digitsToNat ds, '.' :: r) := by
  rcases hlen with hlen | hlen
  · obtain ⟨a, rfl⟩ := List.length_eq_one.mp hlen
    rw [digitsToNat_one] at h1 ⊢
    simp only [List.cons_append, List.nil_append]
    exact parseDayMonth_one_dot (by simpa using hall) h1
  · obtain ⟨a, b, rfl⟩ := List.length_eq_two.mp hlen
    simp only [List.all_cons, List.all_nil, Bool.and_eq_true,
      Bool.and_true] at hall
    rw [digitsToNat_two] at h1 h2 ⊢
    simp only [List.cons_append, List.nil_append]
    exact parseDayMonth_two hall.1 hall.2 h1 h2

theorem parseDay_of_token {ds r : List Char} {d : Nat} (ht : dayTokenVal ds d)
    (h1 : 1 ≤ d) (h31 : d ≤ 31) :
    parseDayMonth true 31 (ds ++ '.' :: r) = some (d, '.' :: r) := by
  rcases ht with ⟨hall, hlen, hval⟩ | ⟨c, rfl, hc, hval⟩
  · subst hval
    exact parseDayMonth_shape_dot hall hlen h1 h31
  · subst hval
    simp only [List.cons_append, List.nil_append]
    exact parseDayMonth_space_digit hc h1

theorem parseYear4_exact {ys : List Char} (hall : ys.all Char.isDigit = true)
    (hlen : ys.length = 4) :
    parseYear4 ys = some (digitsToNat ys, []) := by
  obtain ⟨a, b, c, d, rfl⟩ := list_length_four hlen
  simp only [List.all_cons, List.all_nil, Bool.and_eq_true,
    Bool.and_true] at hall
  rw [digitsToNat_four]
  exact parseYear4_eq hall.1 hall.2.1 hall.2.2.1 hall.2.2.2

theorem pyStrptimeDMY_some_iff {s : String} :
    (∃ dt, pyStrptimeDMY s = some dt) ↔ birthdayLenientShape s := by
  constructor
  · rintro ⟨dt, h⟩
    unfold pyStrptimeDMY at h
    split at h
    · simp at h
    · rename_i d r1 h1
      split at h
      · simp at h
      · rename_i c1 r2
        split at h
        · rename_i hc1
          subst hc1
          split at h
          · simp at h
          · rename_i m r3 h3
            split at h
            · simp at h
            · rename_i c2 r4
              split at h
              · rename_i hc2
                subst hc2
                split at h
                · simp at h
                · rename_i y r5 h5
                  split at h
                  · split at h
                    · rename_i hguard
                      simp only [Bool.and_eq_true, decide_eq_true_eq] at hguard
                      obtain ⟨ds, hsl, hday, hd1, hd31⟩ := parseDay_shape h1
                      obtain ⟨ms, hml, hmsall, hmslen, hmsv, hm1, hm12⟩ :=
                        parseDayMonth_shape_digits h3 (by omega)
                      obtain ⟨a, b, c, dch, hyl, hya, hyb, hyc, hyd, hyv⟩ :=
                        parseYear4_inv h5
                      refine ⟨ds, ms, [a, b, c, dch], d, ?_, hday, hmsall,
                        hmslen, ?_, rfl, hd1, hd31, ?_, ?_, ?_, ?_⟩
                      · rw [hsl, hml, hyl]
                      · simp [hya, hyb, hyc, hyd]
                      · rw [hmsv]; exact hm1
                      · rw [hmsv]; exact hm12
                      · rw [digitsToNat_four, ← hyv]; exact hguard.1
                      · rw [digitsToNat_four, ← hyv, hmsv]
                        exact hguard.2
                    · simp at h
                  · simp at h
              · simp at h
        · simp at h
  · rintro ⟨ds, ms, ys, d, hsl, hday, hmsall, hmslen, hysall, hyslen,
      hd1, hd31, hm1, hm12, hy1, hdm⟩
    refine ⟨⟨digitsToNat ys, digitsToNat ms, d⟩, ?_⟩
    unfold pyStrptimeDMY
    rw [hsl]
    rw [parseDay_of_token hday hd1 hd31]
    simp only [if_pos rfl]
    rw [parseDayMonth_shape_dot hmsall hmslen hm1 hm12]
    simp only [if_pos rfl]
    rw [parseYear4_exact hysall hyslen]
    simp [hy1, hdm]

/-- C3 amended: Birthday construction succeeds if and only if the string
is day.month.year, where the day is 1 or 2 digits or — `%d`'s space-padded
alternative — a space followed by a digit, the month is 1 or 2 digits, and
the year is exactly 4 digits, dots literal, with day ≥ 1 (and ≤ 31 before
the month check), month in 1..12, year ≥ 1 and the day within that month's
length; single-digit day/month and a space-padded day are accepted (e.g.
"1.1.2025" and " 5.1.2025"), and every other string fails with the
invalid-format error. -/
theorem c3_birthday_format_amended (s : String) :
    ((∃ b, mkBirthday s = .ok b) ↔ birthdayLenientShape s) ∧
    (¬ birthdayLenientShape s → mkBirthday s = .error .invalidFormat) := by
  have hlink : (∃ b, mkBirthday s = .ok b) ↔ (∃ dt, pyStrptimeDMY s = some dt) := by
    unfold mkBirthday
    cases pyStrptimeDMY s <;> simp
  constructor
  · exact hlink.trans pyStrptimeDMY_some_iff
  · intro hnot
    unfold mkBirthday
    cases hp : pyStrptimeDMY s with
    | none => rfl
    | some dt => exact absurd (pyStrptimeDMY_some_iff.mp ⟨dt, hp⟩) hnot

/-- C3 amended witness: "1.1.2025" and the space-padded " 5.1.2025"
satisfy the lenient shape and are accepted; "1-1-2025" does not and fails
with the invalid-format error. -/
theorem c3_birthday_format_amended_witness :
    (∃ b, mkBirthday "1.1.2025" = .ok b) ∧
    (∃ b, mkBirthday " 5.1.2025" = .ok b) ∧
    mkBirthday "1-1-2025" = .error .invalidFormat := by
  refine ⟨?_, ?_, ?_⟩
  · exact (c3_birthday_format_amended "1.1.2025").1.mpr
      ⟨['1'], ['1'], ['2', '0', '2', '5'], 1, by decide,
        Or.inl (by decide), by decide, by decide, by decide, by decide,
        by decide, by decide, by decide, by decide, by decide, by decide⟩
  · exact (c3_birthday_format_amended " 5.1.2025").1.mpr
      ⟨[' ', '5'], ['1'], ['2', '0', '2', '5'], 5, by decide,
        Or.inr ⟨'5', rfl, by decide, by decide⟩, by decide, by decide,
        by decide, by decide, by decide, by decide, by decide, by decide,
        by decide, by decide⟩
  · refine (c3_birthday_format_amended "1-1-2025").2 ?_
    rintro ⟨ds, ms, ys, d, hsl, -, -, -, -, -, -, -, -, -, -, -⟩
    have : ('.' : Char) ∈ "1-1-2025".toList := by
      rw [hsl]
      exact List.mem_append_right _ (List.mem_cons_self _ _)
    simp at this

/-- C9 amended witness: the three behaviours at concrete inputs. -/
theorem c9_edit_phone_amended_witness :
    edit_phone johnRecord "9999999999" "1112223333" =
      (johnRecord, some .notFound) ∧
    edit_phone johnRecord "1234567890" "1112223333" =
      ({ johnRecord with phones := ["1112223333", "5555555555"] }, none) ∧
    edit_phone johnRecord "1234567890" "123" =
      (johnRecord, some .invalidFormat) :=
  ⟨(c9_edit_phone_amended johnRecord "9999999999" "1112223333").1 (by decide),
   (c9_edit_phone_amended johnRecord "1234567890" "1112223333").2.1
     [] ["5555555555"] rfl (by decide) (by decide),
   (c9_edit_phone_amended johnRecord "1234567890" "123").2.2
     (by decide) (by decide)⟩

end GoitHw7
